import Mathlib

/-!
Verification development for the caribou build scripts.

The repository consists of four revisions of one Node.js build script:
`src/build.mjs`, `src/unnamed/part_000`, `src/unnamed/part_001` (the
cache-aware revision) and `src/unnamed/part_002`.  This file gives a
shallow embedding of the pieces of those scripts that the verified
properties are about: URL-to-path extraction, `path.dirname`/`path.join`,
the per-grammar build step `processGrammar` with its content-hash cache
(part_001), the grammar loop of `buildDist` with its per-grammar cache
save, `loadCache`, the download/redirect logic, the README template
substitution, the part_000 grammar step that skips grammars with missing
sources, the part_000 README table row builder, and the CLI dispatch of
`build.mjs`.

External effects (file hashes, file existence, subprocess exit status,
HTTP responses) are modelled by explicit "world" records supplying the
outcome of each effect; the embedded functions are pure functions of the
world, so every theorem below can be evaluated on concrete inputs.
-/

/-- Characters of a JavaScript string; all string manipulation in the
scripts is embedded over lists of characters. -/
abbrev Str := List Char

/-- Node `path.join a b` for the clean segments the scripts use: the two
pieces are joined with one slash (no `.`/`..` segments or duplicate
slashes arise in any argument the scripts pass). -/
def joinP (a b : Str) : Str := a ++ '/' :: b

/-- Largest index `e ≥ 1` of a slash in `q` (the `end` marker of Node's
posix `path.dirname` scan), for a `q` that has no trailing slashes. -/
def lastSlashIdx (q : Str) : Option Nat :=
  match q.reverse.findIdx? (fun c => c == '/') with
  | none => none
  | some k =>
    let e := q.length - 1 - k
    if 1 ≤ e then some e else none

/-- Node posix `path.dirname`, translated from its backwards index scan:
skip trailing slashes, find the last remaining slash at index ≥ 1, and
return everything before it (with the root special cases). -/
def dirname (p : Str) : Str :=
  if p.isEmpty then ['.']
  else
    let hasRoot := p.head? == some '/'
    let q := (p.reverse.dropWhile (fun c => c == '/')).reverse
    match lastSlashIdx q with
    | none => if hasRoot then ['/'] else ['.']
    | some e => if hasRoot && e == 1 then ['/', '/'] else q.take e

/-- Literal host part of the GitHub raw-URL regular expression. -/
def rawHost : Str := "raw.githubusercontent.com/".data

/-- Consume characters up to and including the next slash (the tail of a
`[^/]+\/` segment after its first character). -/
def dropSegAux : Str → Option Str
  | [] => none
  | c :: rest => if c == '/' then some rest else dropSegAux rest

/-- Consume one regex segment `[^/]+\/`: at least one non-slash character
followed by a slash. -/
def dropSeg : Str → Option Str
  | [] => none
  | c :: rest => if c == '/' then none else dropSegAux rest

/-- Strip a literal pattern from the front of `s`, if it is a prefix. -/
def stripPat (pat s : Str) : Option Str :=
  if pat.isPrefixOf s then some (s.drop pat.length) else none

/-- Try the regex `raw\.githubusercontent\.com\/[^\/]+\/[^\/]+\/(?:main|master)\/(.+)`
at the start of `s`.  The alternation tries `main` before `master`; the
final `(.+)` greedily captures one or more characters other than a
newline (JavaScript `.` does not match line terminators). -/
def matchGithubAt (s : Str) : Option Str := do
  let r ← stripPat rawHost s
  let r ← dropSeg r
  let r ← dropSeg r
  let r ← (stripPat "main/".data r) <|> (stripPat "master/".data r)
  let cap := r.takeWhile (fun c => !(c == '\n'))
  if cap.isEmpty then none else some cap

/-- Unanchored regex search, as JavaScript `String.prototype.match`
performs: try the pattern at every start position, left to right. -/
def extractSearch : Str → Option Str
  | [] => none
  | s@(_ :: rest) => (matchGithubAt s) <|> extractSearch rest

/-- Error raised by an embedded operation; each constructor corresponds
to one `throw`/`reject` site (or process-abort condition) in the source. -/
inductive Err
  | invalidUrl
  | noGrammarFiles
  | hashFailed
  | typeError
  | processExit
  | missingGenerated
  | bundleFailed
  | fuelExhausted
  | downloadFailed (code : Nat)
  | writeFailed
  deriving Repr, DecidableEq

/-- `extractPathFromUrl` of part_001 (also `extractPath` of `build.mjs`
and part_000): match the GitHub raw-URL regex against the URL and return
the captured repository-relative path, else throw `Invalid URL`. -/
def extractPathFromUrl (url : Str) : Except Err Str :=
  match extractSearch url with
  | some p => .ok p
  | none => .error .invalidUrl

/-- One entry of `grammars.json`: a display name plus optional lexer and
parser source URLs. -/
structure Grammar where
  name : Str
  lexer : Option Str
  parser : Option Str

/-- One build-cache entry (part_001): a build timestamp and the mapping
from source-file relative path to its content digest. -/
structure CacheEntry where
  buildTime : Str
  files : List (Str × Str)
  deriving Repr, DecidableEq

/-- The build cache: a mapping from grammar name to cache entry, looked
up by key as the JavaScript object `cache[cacheKey]` is. -/
abbrev Cache := List (Str × CacheEntry)

/-- `grammar.lexer ? extractPathFromUrl(grammar.lexer) : null` with
JavaScript truthiness: an absent or empty URL gives null, otherwise the
extraction runs (and can throw). -/
def optPath : Option Str → Except Err (Option Str)
  | none => .ok none
  | some u => if u.isEmpty then .ok none else (extractPathFromUrl u).map some

/-- Directory of the script (`__dirname`); an arbitrary absolute path,
opaque to all of the build logic. -/
def SCRIPT_DIR : Str := "/caribou".data

/-- `path.join(__dirname, "dist")`. -/
def OUTPUT_DIR : Str := joinP SCRIPT_DIR "dist".data

/-- `path.join(__dirname, ".buildcache")` (part_001). -/
def BUILD_CACHE_DIR : Str := joinP SCRIPT_DIR ".buildcache".data

/-- `path.join(BUILD_CACHE_DIR, "grammars-v4")` (part_001). -/
def GRAMMARS_REPO_DIR : Str := joinP BUILD_CACHE_DIR "grammars-v4".data

/-- Environment of one part_001 run: the outcome of every external
effect `processGrammar` performs.  `fileHash` is `calculateFileHash`
(`none` when reading the file fails, e.g. the source file is missing);
`outExists` is `canAccess` on already-bundled output artifacts;
`genOk` tells whether the ANTLR generator subprocess exits 0 for a
grammar; `genFileExists` is `canAccess` on a generated file after the
generator ran and the `JavaScript` subdirectory copy (lines 238-243)
completed; `bundleOk` tells whether the rolldown bundling of an entry
file succeeds; `now` is `new Date().toISOString()`. -/
structure World where
  fileHash : Str → Option Str
  outExists : Str → Bool
  genOk : Str → Bool
  genFileExists : Str → Bool
  bundleOk : Str → Bool
  now : Str

/-- Data `processGrammar` derives from a grammar before the cache check:
the declared component types, the fresh source digests keyed by relative
path, the generator working directory, and the output directory. -/
structure PrepData where
  fileTypes : List Str
  fileHashes : List (Str × Str)
  cwd : Str
  outputDir : Str

/-- Resolve one declared source file and compute its digest
(part_001 lines 179-191): a failing hash read throws. -/
def hashOne (w : World) (rel : Str) (ty : Str) :
    Except Err (List Str × List (Str × Str)) :=
  match w.fileHash (joinP GRAMMARS_REPO_DIR rel) with
  | some h => .ok ([ty], [(rel, h)])
  | none => .error .hashFailed

/-- Path resolution and digest phase of part_001 `processGrammar`
(lines 163-199), in source order: extract both URLs, reject a grammar
with no source at all, hash the declared files, derive `cwd` from
`path.dirname(lexerPath || parserPath)`, then derive the output
directory from `path.dirname(parserPath)` - the source passes
`parserPath` to `path.dirname` unguarded (line 199), and Node's
`path.dirname` throws a `TypeError` when its argument is `null`, which
is the case for a grammar declaring only a lexer. -/
def preparePG (w : World) (g : Grammar) : Except Err PrepData := do
  let lexerPath ← optPath g.lexer
  let parserPath ← optPath g.parser
  if lexerPath.isNone && parserPath.isNone then
    throw Err.noGrammarFiles
  let lexPart ← match lexerPath with
    | some lp => hashOne w lp "Lexer".data
    | none => pure ([], [])
  let parPart ← match parserPath with
    | some pp => hashOne w pp "Parser".data
    | none => pure ([], [])
  let primary := (lexerPath.orElse (fun _ => parserPath)).getD []
  let cwd := joinP GRAMMARS_REPO_DIR (dirname primary)
  let outputDir ← match parserPath with
    | some pp => pure (joinP OUTPUT_DIR (dirname pp))
    | none => throw Err.typeError
  pure { fileTypes := lexPart.1 ++ parPart.1,
         fileHashes := lexPart.2 ++ parPart.2,
         cwd := cwd, outputDir := outputDir }

/-- Subprocess and bundler invocations performed for one grammar. -/
structure Trace where
  genCalls : Nat
  bundleCalls : Nat
  deriving Repr, DecidableEq

/-- `type.toLowerCase()`. -/
def lowerL (s : Str) : Str := s.map Char.toLower

/-- The `.js` file suffix. -/
def dotJs : Str := ".js".data

/-- Cache-validity check of part_001 lines 201-218: an entry must exist
for the grammar name, every expected bundled output
`<outputDir>/<type lowercased>.js` must exist on disk, and for every
freshly hashed source file the digest recorded in the entry must equal
the fresh digest. -/
def cacheHit (w : World) (name : Str) (cache : Cache) (d : PrepData) : Bool :=
  match List.lookup name cache with
  | none => false
  | some entry =>
    (d.fileTypes.all (fun t => w.outExists (joinP d.outputDir (lowerL t ++ dotJs))))
      && (d.fileHashes.all (fun fh => List.lookup fh.1 entry.files == some fh.2))

/-- `cache[cacheKey] = ...` - JavaScript object assignment, observed only
through key lookup, so prepending the new binding is a faithful model. -/
def cacheInsert (name : Str) (e : CacheEntry) (cache : Cache) : Cache :=
  (name, e) :: cache

/-- Bundling loop of part_001 lines 246-265: for each declared component
type in order, require the generated entry file
`<cwd>/<name><type>.js` (a missing file throws `ANTLR failed to
generate ...`), then invoke the rolldown bundler on it.  Returns the
number of bundler invocations performed and the first failure, if any. -/
def bundleAll (w : World) (cwd gname : Str) : List Str → Nat × Option Err
  | [] => (0, none)
  | t :: rest =>
    let mainFile := joinP cwd (gname ++ t ++ dotJs)
    if w.genFileExists mainFile then
      if w.bundleOk mainFile then
        let r := bundleAll w cwd gname rest
        (r.1 + 1, r.2)
      else (1, some Err.bundleFailed)
    else (0, some Err.missingGenerated)

/-- part_001 `processGrammar` (lines 163-274): prepare paths and digests,
return immediately on a cache hit (no generator or bundler invocation,
cache untouched), otherwise run the ANTLR generator subprocess (a
non-zero exit throws), bundle every declared component, and record the
fresh digests and timestamp in the cache.  The result carries the
invocation trace alongside the updated cache or the raised error. -/
def processGrammar (w : World) (g : Grammar) (cache : Cache) :
    Trace × Except Err Cache :=
  match preparePG w g with
  | .error e => (⟨0, 0⟩, .error e)
  | .ok d =>
    if cacheHit w g.name cache d then
      (⟨0, 0⟩, .ok cache)
    else if w.genOk g.name then
      match bundleAll w d.cwd g.name d.fileTypes with
      | (n, some e) => (⟨1, n⟩, .error e)
      | (n, none) =>
        (⟨1, n⟩, .ok (cacheInsert g.name ⟨w.now, d.fileHashes⟩ cache))
    else (⟨1, 0⟩, .error Err.processExit)

/-- State of one `buildDist` grammar loop run: the names for which
`processGrammar` was invoked, the in-memory cache, the cache last
written to durable storage by `saveCache`, and the aborting error. -/
structure RunState where
  processed : List Str
  cache : Cache
  persisted : Cache
  failure : Option Err
  deriving Repr

/-- Grammar loop of part_001 `buildDist` (lines 400-417): grammars are
processed strictly sequentially; after each successful grammar the whole
cache is saved (`persisted` becomes the current cache); the first error
aborts the run immediately, before any further grammar is touched and
before any further save. -/
def buildDistLoop (w : World) : List Grammar → Cache → Cache → RunState
  | [], cache, persisted => ⟨[], cache, persisted, none⟩
  | g :: rest, cache, persisted =>
    match processGrammar w g cache with
    | (_, .error e) => ⟨[g.name], cache, persisted, some e⟩
    | (_, .ok c') =>
      let s := buildDistLoop w rest c' c'
      ⟨g.name :: s.processed, s.cache, s.persisted, s.failure⟩

/-- Observable state of the persisted cache file when `loadCache` runs:
absent, present but not valid JSON, or present and parsing to a cache. -/
inductive CacheFileState
  | missing
  | corrupt
  | parsed (c : Cache)

/-- part_001 `loadCache` (lines 80-90): a missing cache file and a cache
file whose contents fail to parse both yield the empty mapping - the
parse error is caught, a warning is logged, and the run proceeds with a
cold cache; only a readable, well-formed file yields its parsed
mapping.  The function is total: no input makes it raise. -/
def loadCache : CacheFileState → Cache
  | .missing => []
  | .corrupt => []
  | .parsed c => c

/-- `path.join(__dirname, ".build")` (part_000). -/
def BUILD_DIR : Str := joinP SCRIPT_DIR ".build".data

/-- `path.join(BUILD_DIR, "grammars-v4")` (part_000). -/
def GRAMMARS_REPO_DIR0 : Str := joinP BUILD_DIR "grammars-v4".data

/-- Grammar record consumed by part_000 `processGrammar`: name, base
directory, and `Object.values(paths)` - the repository-relative source
paths already extracted by `loadGrammars`. -/
structure Grammar0 where
  name : Str
  base : Str
  paths : List Str

/-- Environment of one part_000 run: existence of the declared source
files inside the mirror, and the ANTLR generator exit status per
grammar name. -/
structure World0 where
  srcExists : Str → Bool
  genOk : Str → Bool

/-- Outcome of part_000 `processGrammar` for one grammar. -/
inductive P0Result
  | skipped
  | built
  | failed (e : Err)
  deriving Repr, DecidableEq

/-- part_000 `processGrammar` (lines 98-131): check that every declared
source file exists; if any is missing, log `Skipping invalid grammar`
and return normally (the grammar is skipped, nothing is raised);
otherwise invoke the ANTLR generator, whose non-zero exit rejects and
aborts the whole run. -/
def processGrammar0 (w : World0) (g : Grammar0) : P0Result :=
  if g.paths.all (fun q => w.srcExists (joinP GRAMMARS_REPO_DIR0 q)) then
    if w.genOk g.name then .built else .failed Err.processExit
  else .skipped

/-- part_000 main loop (line 215): `for (const grammar of grammars)
await processGrammar(grammar)` - a skip continues with the next grammar,
a rejection aborts the run.  Returns the per-grammar outcomes in order
together with the aborting error, if any. -/
def runAll0 (w : World0) : List Grammar0 → List (Str × P0Result) × Option Err
  | [] => ([], none)
  | g :: rest =>
    match processGrammar0 w g with
    | .skipped =>
      let s := runAll0 w rest
      ((g.name, .skipped) :: s.1, s.2)
    | .built =>
      let s := runAll0 w rest
      ((g.name, .built) :: s.1, s.2)
    | .failed e => ([(g.name, .failed e)], some e)

/-- The fixed README placeholder token of `build.mjs` `generateReadme`
and part_001 `populateREADME`. -/
def INSERT_LANGS_TOKEN : Str := "<!-- INSERT_LANGS_HERE -->".data

/-- JavaScript `template.replace(pat, rep)` for a string pattern `pat`
and a replacement `rep` containing no dollar character: replace the
first occurrence of `pat` only, leave everything else unchanged, and
return the input unchanged when `pat` does not occur.  (JavaScript
additionally expands `$`-escape sequences inside the replacement; for a
dollar-free replacement the substitution is the literal one modelled
here.) -/
def replaceFirst (pat rep : Str) : Str → Str
  | [] => []
  | c :: rest =>
    if pat.isPrefixOf (c :: rest) then rep ++ (c :: rest).drop pat.length
    else c :: replaceFirst pat rep rest

/-- Whether the token `pat` occurs anywhere in the text. -/
def containsTok (pat : Str) : Str → Bool
  | [] => pat.isEmpty
  | c :: rest => pat.isPrefixOf (c :: rest) || containsTok pat rest

/-- README templating of `build.mjs` `generateReadme` (lines 156-164)
and part_001 `populateREADME` (lines 346-358): substitute the rendered
table into the template via
`template.replace("<!-- INSERT_LANGS_HERE -->", table)`. -/
def populateReadmeText (template table : Str) : Str :=
  replaceFirst INSERT_LANGS_TOKEN table template

/-- `files.find(p => p.endsWith(suffix))` of the part_000 README table
row builder. -/
def findBySuffix (suffix : Str) (files : List Str) : Option Str :=
  files.find? (fun p => suffix.isSuffixOf p)

/-- Render one optional filename cell: `` `file` `` when found, the
empty string otherwise. -/
def cellOf : Option Str → Str
  | some f => '`' :: (f ++ ['`'])
  | none => []

/-- The misspelled suffix the part_000 README generator matches visitor
files against (line 153): `"Vistor.js"`, not `"Visitor.js"`. -/
def vistorSuffix : Str := "Vistor.js".data

/-- Visitor cell of a part_000 README table row (lines 153 and 163):
the first generated file whose name ends with `"Vistor.js"`, or empty. -/
def visitorCell (generatedFiles : List Str) : Str :=
  cellOf (findBySuffix vistorSuffix generatedFiles)

/-- Join strings with a separator (the `.join(" | ")` of the row). -/
def sepJoin (sep : Str) : List Str → Str
  | [] => []
  | [x] => x
  | x :: y :: rest => x ++ sep ++ sepJoin sep (y :: rest)

/-- One row of the part_000 README table (lines 146-165): language name,
base path in backticks, then the lexer, parser, visitor and listener
cells selected from the generated files by filename suffix. -/
def readmeRow0 (name base : Str) (generatedFiles : List Str) : Str :=
  '|' :: sepJoin " | ".data
    [ name,
      '`' :: (base ++ ['`']),
      cellOf (findBySuffix "Lexer.js".data generatedFiles),
      cellOf (findBySuffix "Parser.js".data generatedFiles),
      visitorCell generatedFiles,
      cellOf (findBySuffix "Listener.js".data generatedFiles) ] ++ ['|']

/-- Property names every plain JavaScript object inherits from
`Object.prototype`; `commands[mode]` in `build.mjs` finds these even
though `commands` is the literal `{ dist, readme }`, and each of them is
truthy (a function, or `Object.prototype` itself for `__proto__`). -/
def objectProtoNames : List Str :=
  [ "constructor".data, "hasOwnProperty".data, "isPrototypeOf".data,
    "propertyIsEnumerable".data, "toLocaleString".data, "toString".data,
    "valueOf".data, "__proto__".data, "__defineGetter__".data,
    "__defineSetter__".data, "__lookupGetter__".data, "__lookupSetter__".data ]

/-- What the `build.mjs` entry point (lines 201-209) does with the mode
argument. -/
inductive CliAction
  | usageExit
  | runDist
  | runReadme
  | runInherited (s : Str)
  deriving Repr, DecidableEq

/-- JavaScript property-key conversion of `process.argv[2]`: a missing
argument is `undefined`, which as a property key is the string
`"undefined"`. -/
def argvKey : Option Str → Str
  | none => "undefined".data
  | some s => s

/-- `build.mjs` mode dispatch (lines 201-209): `commands[mode]` is an
object property lookup on `{ dist, readme }`, so it finds the two own
properties and every `Object.prototype` member; only when the lookup
yields a falsy value is the usage message printed and `process.exit(1)`
called.  A hit on an inherited member is truthy, so `commands[mode]()`
is invoked instead. -/
def buildMjsMain (argv2 : Option Str) : CliAction :=
  let k := argvKey argv2
  if k == "dist".data then .runDist
  else if k == "readme".data then .runReadme
  else if objectProtoNames.contains k then .runInherited k
  else .usageExit

/-- Process exit code after the dispatch: the usage branch exits 1;
otherwise the selected callable runs and the process exits 0 when it
completes without error, 1 when it raises.  (Calling the inherited
`Object.prototype.toString` completes without error and the script then
ends, so mode `"toString"` exits 0.) -/
def cliExitCode (a : CliAction) (selectedOk : Bool) : Nat :=
  match a with
  | .usageExit => 1
  | _ => if selectedOk then 0 else 1

/-- part_001 `build` dispatch (lines 438-455): a `switch` on the mode
string, whose `default` branch prints usage and exits 1; only the exact
strings `"dist"` and `"readme"` select an action. -/
def buildP1Main (argv2 : Option Str) : CliAction :=
  match argv2 with
  | some s =>
    if s == "dist".data then .runDist
    else if s == "readme".data then .runReadme
    else .usageExit
  | none => .usageExit

/-- One HTTP response in the download model: a status code, the
`location` header, and whether piping the body to the destination file
completes (stream errors reject the download). -/
structure Resp (U : Type) where
  code : Nat
  location : U

/-- Network environment of `downloadFile`: the response each URL gets,
and whether the write stream to the (fixed) destination finishes. -/
structure NetWorld (U : Type) where
  resp : U → Resp U
  writeOk : Bool

/-- part_001 `downloadFile` (lines 105-140), also `download` of
`build.mjs` (lines 35-53): status 301 or 302 recursively re-requests the
`location` header with no hop limit; any other non-200 status rejects
with `Download failed`; status 200 pipes the body to the destination and
resolves once the stream finishes (a stream error rejects).  The source
recursion has no terminating measure - a redirect cycle recurses forever
- so the embedding counts recursion steps with a fuel argument;
`Err.fuelExhausted` marks the runs on which the source would still be
looping. -/
def downloadFile {U : Type} (w : NetWorld U) : Nat → U → Except Err Unit
  | 0, _ => .error Err.fuelExhausted
  | fuel + 1, url =>
    let r := w.resp url
    if r.code = 301 ∨ r.code = 302 then downloadFile w fuel r.location
    else if r.code ≠ 200 then .error (Err.downloadFailed r.code)
    else if w.writeOk then .ok () else .error Err.writeFailed

/-- A redirect chain of length `n` over URLs numbered `0, 1, ...`: URL
`i < n` answers 301 with location `i+1`, URL `n` answers 200, and the
destination write succeeds. -/
def chainWorld (n : Nat) : NetWorld Nat :=
  { resp := fun i => if i < n then ⟨301, i + 1⟩ else ⟨200, 0⟩,
    writeOk := true }

/-- Concrete lexer URL used by the witness runs. -/
def wLexUrl : Str :=
  "https://raw.githubusercontent.com/antlr/grammars-v4/master/foo/FooLexer.g4".data

/-- Concrete parser URL used by the witness runs. -/
def wParUrl : Str :=
  "https://raw.githubusercontent.com/antlr/grammars-v4/master/foo/FooParser.g4".data

/-- Repository-relative path the lexer URL extracts to. -/
def lexRel : Str := "foo/FooLexer.g4".data

/-- Repository-relative path the parser URL extracts to. -/
def parRel : Str := "foo/FooParser.g4".data

/-- Concrete witness grammar with both a lexer and a parser. -/
def wGram : Grammar := ⟨"Foo".data, some wLexUrl, some wParUrl⟩

/-- Concrete grammar declaring only a lexer (a valid descriptor per the
manifest format: at least one source is required, each is optional). -/
def lexOnlyGram : Grammar := ⟨"Foo".data, some wLexUrl, none⟩

/-- Concrete witness world: both sources readable with fixed digests,
all output artifacts present, generator and bundler succeeding,
generated files present. -/
def wWorld : World :=
  { fileHash := fun p =>
      if p == joinP GRAMMARS_REPO_DIR lexRel then some "d1af".data
      else if p == joinP GRAMMARS_REPO_DIR parRel then some "9bc0".data
      else none,
    outExists := fun _ => true,
    genOk := fun _ => true,
    genFileExists := fun _ => true,
    bundleOk := fun _ => true,
    now := "2026-01-01T00:00:00.000Z".data }

/-- The witness world, except that no generated file exists after the
generator runs (e.g. the generator emitted differently named files). -/
def wWorldMiss : World :=
  { wWorld with genFileExists := fun _ => false }

/-- Prepared data `preparePG` computes for `wGram` in `wWorld`. -/
def wPrep : PrepData :=
  { fileTypes := ["Lexer".data, "Parser".data],
    fileHashes := [(lexRel, "d1af".data), (parRel, "9bc0".data)],
    cwd := joinP GRAMMARS_REPO_DIR "foo".data,
    outputDir := joinP OUTPUT_DIR "foo".data }

/-- Cache entry recording exactly the fresh digests of `wGram`. -/
def wEntry : CacheEntry :=
  ⟨"2025-12-31T00:00:00.000Z".data, [(lexRel, "d1af".data), (parRel, "9bc0".data)]⟩

/-- Cache whose entry for `Foo` matches the current sources. -/
def wCacheFresh : Cache := [("Foo".data, wEntry)]

/-- Cache entry whose recorded lexer digest differs from the fresh one. -/
def wEntryStale : CacheEntry :=
  ⟨"2025-12-31T00:00:00.000Z".data, [(lexRel, "0000".data), (parRel, "9bc0".data)]⟩

/-- Cache whose entry for `Foo` is stale on the lexer source. -/
def wCacheStale : Cache := [("Foo".data, wEntryStale)]

/-- part_000 world for the counterexample run: the source of grammar
`Bad` is missing, everything else exists and the generator succeeds. -/
def w0Bad : World0 :=
  { srcExists := fun p => !(p == joinP GRAMMARS_REPO_DIR0 "bad/Bad.g4".data),
    genOk := fun _ => true }

/-- part_000 grammar whose declared source file is missing. -/
def g0Bad : Grammar0 := ⟨"Bad".data, "bad".data, ["bad/Bad.g4".data]⟩

/-- part_000 grammar following the bad one in the manifest. -/
def g0Good : Grammar0 := ⟨"Good".data, "good".data, ["good/Good.g4".data]⟩

/-- Network world in which every URL answers 404. -/
def notFoundWorld : NetWorld Nat :=
  { resp := fun _ => ⟨404, 0⟩, writeOk := true }

/-- Path resolution of `build.mjs` `processGrammar` (lines 87-99): the
base directory there is `path.dirname(paths.lexer || paths.parser)`, so
a lexer-only grammar resolves without error (only a grammar with neither
source would reach `path.dirname(undefined)` and raise). -/
def baseOfBuildMjs (g : Grammar) : Except Err Str := do
  let lexerPath ← optPath g.lexer
  let parserPath ← optPath g.parser
  match lexerPath.orElse (fun _ => parserPath) with
  | some pr => pure (dirname pr)
  | none => throw Err.typeError

theorem bundleAll_success (w : World) (cwd gname : Str) (l : List Str)
    (hex : ∀ t ∈ l, w.genFileExists (joinP cwd (gname ++ t ++ dotJs)) = true)
    (hok : ∀ t ∈ l, w.bundleOk (joinP cwd (gname ++ t ++ dotJs)) = true) :
    bundleAll w cwd gname l = (l.length, none) := by
  induction l with
  | nil => rfl
  | cons t rest ih =>
    have h1 := hex t (List.mem_cons_self t rest)
    have h2 := hok t (List.mem_cons_self t rest)
    simp only [bundleAll, h1, h2, if_true,
      ih (fun u hu => hex u (List.mem_cons_of_mem t hu))
         (fun u hu => hok u (List.mem_cons_of_mem t hu)),
      List.length_cons]

/-- C1: if a cache entry exists for the grammar, the recorded digest of
every freshly hashed current source file equals the fresh digest, and
every expected output artifact (one `<type lowercased>.js` per declared
component, in the grammar's output directory) exists on disk, then
`processGrammar` performs zero generator and zero bundler invocations
and returns with the cache - in particular the grammar's entry -
unmodified. -/
theorem cache_hit_performs_no_invocations
    (w : World) (g : Grammar) (cache : Cache) (d : PrepData) (entry : CacheEntry)
    (hprep : preparePG w g = .ok d)
    (hentry : List.lookup g.name cache = some entry)
    (hdig : ∀ fh ∈ d.fileHashes, List.lookup fh.1 entry.files = some fh.2)
    (hout : ∀ t ∈ d.fileTypes,
      w.outExists (joinP d.outputDir (lowerL t ++ dotJs)) = true) :
    processGrammar w g cache = (⟨0, 0⟩, .ok cache) := by
  have hhit : cacheHit w g.name cache d = true := by
    unfold cacheHit
    rw [hentry, Bool.and_eq_true]
    refine ⟨List.all_eq_true.mpr hout, List.all_eq_true.mpr ?_⟩
    intro fh hf
    rw [hdig fh hf]
    exact beq_self_eq_true _
  simp [processGrammar, hprep, hhit]

theorem cache_hit_performs_no_invocations_witness :
    processGrammar wWorld wGram wCacheFresh = (⟨0, 0⟩, .ok wCacheFresh) :=
  cache_hit_performs_no_invocations wWorld wGram wCacheFresh wPrep wEntry rfl rfl
    (by decide) (by decide)

/-- C2: if a cache entry exists but the digest recorded for some current
source file differs from the freshly computed one, `processGrammar`
invokes the generator subprocess once and the bundler once per declared
component - even though every expected output file already exists on
disk - and records the fresh digests in the cache. -/
theorem stale_digest_forces_rebuild
    (w : World) (g : Grammar) (cache : Cache) (d : PrepData) (entry : CacheEntry)
    (hprep : preparePG w g = .ok d)
    (hentry : List.lookup g.name cache = some entry)
    (hstale : ∃ fh ∈ d.fileHashes, ¬ List.lookup fh.1 entry.files = some fh.2)
    (hout : ∀ t ∈ d.fileTypes,
      w.outExists (joinP d.outputDir (lowerL t ++ dotJs)) = true)
    (hgen : w.genOk g.name = true)
    (hex : ∀ t ∈ d.fileTypes,
      w.genFileExists (joinP d.cwd (g.name ++ t ++ dotJs)) = true)
    (hbun : ∀ t ∈ d.fileTypes,
      w.bundleOk (joinP d.cwd (g.name ++ t ++ dotJs)) = true) :
    processGrammar w g cache =
      (⟨1, d.fileTypes.length⟩,
       .ok (cacheInsert g.name ⟨w.now, d.fileHashes⟩ cache)) := by
  have hmiss : cacheHit w g.name cache d = false := by
    unfold cacheHit
    rw [hentry]
    obtain ⟨fh, hmem, hne⟩ := hstale
    have hall : d.fileHashes.all
        (fun fh => List.lookup fh.1 entry.files == some fh.2) = false := by
      rw [Bool.eq_false_iff]
      intro hall
      rw [List.all_eq_true] at hall
      exact hne (by simpa [beq_iff_eq] using hall fh hmem)
    simp only [hall, Bool.and_false]
  simp [processGrammar, hprep, hmiss, hgen,
    bundleAll_success w d.cwd g.name d.fileTypes hex hbun]

theorem stale_digest_forces_rebuild_witness :
    processGrammar wWorld wGram wCacheStale =
      (⟨1, 2⟩, .ok (cacheInsert "Foo".data ⟨wWorld.now, wPrep.fileHashes⟩ wCacheStale)) :=
  stale_digest_forces_rebuild wWorld wGram wCacheStale wPrep wEntryStale rfl rfl
    (by decide) (by decide) rfl (by decide) (by decide)

theorem bundleAll_missing (w : World) (cwd gname : Str) (l : List Str)
    (h : ∃ t ∈ l, w.genFileExists (joinP cwd (gname ++ t ++ dotJs)) = false) :
    (bundleAll w cwd gname l).2.isSome = true := by
  induction l with
  | nil => simp at h
  | cons t rest ih =>
    obtain ⟨u, hu, hfalse⟩ := h
    rcases List.mem_cons.mp hu with rfl | hu'
    · rw [List.append_assoc] at hfalse
      simp [bundleAll, hfalse]
    · by_cases h1 : w.genFileExists (joinP cwd (gname ++ t ++ dotJs)) = true
      · by_cases h2 : w.bundleOk (joinP cwd (gname ++ t ++ dotJs)) = true
        · simp only [bundleAll, h1, h2, if_true]
          exact ih ⟨u, hu', hfalse⟩
        · rw [Bool.not_eq_true] at h2
          rw [List.append_assoc] at h1 h2
          simp [bundleAll, h1, h2]
      · rw [Bool.not_eq_true] at h1
        rw [List.append_assoc] at h1
        simp [bundleAll, h1]

theorem processGrammar0_skips (w0 : World0) (g0 : Grammar0)
    (h : ∃ q ∈ g0.paths, w0.srcExists (joinP GRAMMARS_REPO_DIR0 q) = false) :
    processGrammar0 w0 g0 = .skipped := by
  unfold processGrammar0
  obtain ⟨q, hq, hf⟩ := h
  have hall : g0.paths.all (fun q => w0.srcExists (joinP GRAMMARS_REPO_DIR0 q)) = false := by
    rw [Bool.eq_false_iff]
    intro hall
    rw [List.all_eq_true] at hall
    have h2 := hall q hq
    rw [hf] at h2
    exact Bool.false_ne_true h2
  simp [hall]

theorem runAll0_skip_continues (w0 : World0) (g0 : Grammar0) (rest : List Grammar0)
    (h : processGrammar0 w0 g0 = .skipped) :
    runAll0 w0 (g0 :: rest) =
      ((g0.name, .skipped) :: (runAll0 w0 rest).1, (runAll0 w0 rest).2) := by
  simp [runAll0, h]

/-- C4 counterexample: in the part_000 revision a grammar whose declared
source file is missing does not terminate the run - `processGrammar`
logs `Skipping invalid grammar` and returns, and the loop continues: in
this concrete run the grammar `Bad` (missing source `bad/Bad.g4`) is
skipped and the following grammar `Good` is still processed and built,
with no error raised. -/
theorem missing_source_does_not_abort_run :
    runAll0 w0Bad [g0Bad, g0Good] =
      ([("Bad".data, .skipped), ("Good".data, .built)], none) ∧
    processGrammar0 w0Bad g0Bad = .skipped ∧
    processGrammar0 w0Bad g0Good = .built := ⟨rfl, rfl, rfl⟩

/-- C4 (amended): in the cached revision (part_001) every error raised
while processing a grammar - in particular a generated file missing for
a declared component - terminates the whole run immediately: the loop
stops with that error, no subsequent grammar is processed and no further
cache save happens.  In the part_000 revision, however, a grammar with a
missing declared source file is not fatal: it is skipped with a warning
and the run continues with the subsequent grammars. -/
theorem fatal_condition_aborts_run
    (w : World) (g : Grammar) (rest : List Grammar) (c p : Cache) (d : PrepData)
    (hprep : preparePG w g = .ok d)
    (hnohit : cacheHit w g.name c d = false)
    (hgen : w.genOk g.name = true)
    (hmiss : ∃ t ∈ d.fileTypes,
      w.genFileExists (joinP d.cwd (g.name ++ t ++ dotJs)) = false) :
    (∃ e, (processGrammar w g c).2 = .error e ∧
      buildDistLoop w (g :: rest) c p = ⟨[g.name], c, p, some e⟩) ∧
    (∀ (w0 : World0) (g0 : Grammar0) (rest0 : List Grammar0),
      (∃ q ∈ g0.paths, w0.srcExists (joinP GRAMMARS_REPO_DIR0 q) = false) →
      runAll0 w0 (g0 :: rest0) =
        ((g0.name, .skipped) :: (runAll0 w0 rest0).1, (runAll0 w0 rest0).2)) := by
  constructor
  · have hb := bundleAll_missing w d.cwd g.name d.fileTypes hmiss
    rcases hba : bundleAll w d.cwd g.name d.fileTypes with ⟨n, oe⟩
    rw [hba] at hb
    cases oe with
    | none => simp at hb
    | some e =>
      have hpg : processGrammar w g c = (⟨1, n⟩, .error e) := by
        simp [processGrammar, hprep, hnohit, hgen, hba]
      exact ⟨e, by rw [hpg], by simp [buildDistLoop, hpg]⟩
  · intro w0 g0 rest0 h0
    exact runAll0_skip_continues w0 g0 rest0 (processGrammar0_skips w0 g0 h0)

theorem fatal_condition_aborts_run_witness :
    (processGrammar wWorldMiss wGram []).2 = .error Err.missingGenerated ∧
    buildDistLoop wWorldMiss [wGram] [] [] =
      ⟨["Foo".data], [], [], some Err.missingGenerated⟩ := by
  obtain ⟨e, h1, h2⟩ :=
    (fatal_condition_aborts_run wWorldMiss wGram [] [] [] wPrep rfl rfl rfl
      (by decide)).1
  rw [show (processGrammar wWorldMiss wGram []).2 = .error Err.missingGenerated
    from rfl] at h1
  injection h1 with he
  subst he
  exact ⟨rfl, h2⟩

/-- C5: evaluation at the failing input.  A descriptor with a lexer URL
and no parser URL is valid per the manifest format (at least one source
required, each optional), and part_001's own guard (line 171) and `cwd`
derivation (line 193) treat it as valid; but line 199 then computes
`path.dirname(parserPath)` with `parserPath = null`, which raises a
`TypeError`, so `processGrammar` fails during path resolution - before
the cache check and before any subprocess - and the whole run aborts.
The `build.mjs` revision of the same function derives the directory from
`paths.lexer || paths.parser` and accepts the same descriptor. -/
theorem lexer_only_grammar_raises_type_error :
    preparePG wWorld lexOnlyGram = .error Err.typeError ∧
    processGrammar wWorld lexOnlyGram [] = (⟨0, 0⟩, .error Err.typeError) ∧
    buildDistLoop wWorld [lexOnlyGram] [] [] =
      ⟨["Foo".data], [], [], some Err.typeError⟩ ∧
    baseOfBuildMjs lexOnlyGram = .ok "foo".data := ⟨rfl, rfl, rfl, rfl⟩

/-- C9: evaluation at the failing input.  For mode `"toString"` (any
`Object.prototype` member name behaves similarly) the `build.mjs`
dispatch finds the inherited `Object.prototype.toString` through the
`commands[mode]` property lookup, judges it truthy, and invokes it
instead of printing the usage message: the process performs no build or
documentation action yet exits with status 0 and prints no usage.  The
part_001 revision dispatches through a `switch` and correctly rejects
the same mode; a missing argument is rejected by both. -/
theorem inherited_mode_bypasses_usage :
    buildMjsMain (some "toString".data) = .runInherited "toString".data ∧
    buildMjsMain (some "toString".data) ≠ .usageExit ∧
    cliExitCode (buildMjsMain (some "toString".data)) true = 0 ∧
    buildMjsMain none = .usageExit ∧
    cliExitCode (buildMjsMain none) true = 1 ∧
    buildMjsMain (some "dist".data) = .runDist ∧
    buildP1Main (some "toString".data) = .usageExit := by decide

theorem processGrammar_ok_lookup (w : World) (g : Grammar) (c c' : Cache) (t : Trace)
    (h : processGrammar w g c = (t, .ok c')) :
    (List.lookup g.name c').isSome = true ∧
    ∀ k, (List.lookup k c).isSome = true → (List.lookup k c').isSome = true := by
  unfold processGrammar at h
  split at h
  · exact absurd (congrArg Prod.snd h) (by simp)
  · rename_i d heq
    split at h
    · rename_i hhit
      injection h with h1 h2
      injection h2 with h3
      subst h3
      refine ⟨?_, fun k hk => hk⟩
      unfold cacheHit at hhit
      cases hl : List.lookup g.name c with
      | none => rw [hl] at hhit; exact absurd hhit (by simp)
      | some entry => rfl
    · rename_i hhit
      split at h
      · rename_i hgen
        split at h
        · exact absurd (congrArg Prod.snd h) (by simp)
        · rename_i n heq2
          injection h with h1 h2
          injection h2 with h3
          subst h3
          constructor
          · simp only [cacheInsert, List.lookup, beq_self_eq_true]
            rfl
          · intro k hk
            by_cases hkb : (k == g.name) = true
            · simp only [cacheInsert, List.lookup, hkb]
              rfl
            · rw [Bool.not_eq_true] at hkb
              simp only [cacheInsert, List.lookup, hkb]
              exact hk
      · exact absurd (congrArg Prod.snd h) (by simp)

theorem buildDistLoop_keeps (w : World) (gs : List Grammar) (k : Str) :
    ∀ c p, (List.lookup k c).isSome = true →
      (List.lookup k (buildDistLoop w gs c p).cache).isSome = true := by
  induction gs with
  | nil => intro c p h; exact h
  | cons g rest ih =>
    intro c p h
    unfold buildDistLoop
    rcases hpg : processGrammar w g c with ⟨t, r⟩
    cases r with
    | error e => simp only [hpg]; exact h
    | ok c' =>
      simp only [hpg]
      exact ih c' c' ((processGrammar_ok_lookup w g c c' t hpg).2 k h)

/-- C6: during a full build the cache is saved to durable storage after
each grammar completes, not only at the end: after the loop has run over
the grammars processed so far (any nonempty prefix of the manifest) and
all of them succeeded, the persisted cache equals the in-memory cache,
it holds an entry for every grammar of that prefix, and reloading the
persisted file yields exactly that mapping.  Terminating the process
right after grammar `k` therefore leaves a reloadable entry for every
built grammar among `1..k` (instantiate `gs` with the first `k`
grammars). -/
theorem cache_saved_after_each_grammar (w : World) (gs : List Grammar) (c p : Cache)
    (hok : (buildDistLoop w gs c p).failure = none) (hne : gs ≠ []) :
    (buildDistLoop w gs c p).persisted = (buildDistLoop w gs c p).cache ∧
    (∀ g ∈ gs, (List.lookup g.name (buildDistLoop w gs c p).persisted).isSome = true) ∧
    loadCache (.parsed (buildDistLoop w gs c p).persisted) =
      (buildDistLoop w gs c p).persisted := by
  induction gs generalizing c p with
  | nil => exact absurd rfl hne
  | cons g rest ih =>
    rcases hpg : processGrammar w g c with ⟨t, r⟩
    cases r with
    | error e =>
      rw [show buildDistLoop w (g :: rest) c p = ⟨[g.name], c, p, some e⟩ from by
        simp [buildDistLoop, hpg]] at hok
      simp at hok
    | ok c' =>
      have hstep : buildDistLoop w (g :: rest) c p =
          ⟨g.name :: (buildDistLoop w rest c' c').processed,
           (buildDistLoop w rest c' c').cache,
           (buildDistLoop w rest c' c').persisted,
           (buildDistLoop w rest c' c').failure⟩ := by
        simp [buildDistLoop, hpg]
      rw [hstep] at hok ⊢
      have hok' : (buildDistLoop w rest c' c').failure = none := hok
      by_cases hrest : rest = []
      · subst hrest
        refine ⟨rfl, ?_, rfl⟩
        intro g' hg'
        have hg : g' = g := by simpa using hg'
        subst hg
        exact (processGrammar_ok_lookup w g' c c' t hpg).1
      · obtain ⟨ih1, ih2, ih3⟩ := ih c' c' hok' hrest
        refine ⟨ih1, ?_, ih3⟩
        intro g' hg'
        rcases List.mem_cons.mp hg' with hg | hg''
        · subst hg
          show (List.lookup g'.name (buildDistLoop w rest c' c').persisted).isSome
            = true
          rw [ih1]
          exact buildDistLoop_keeps w rest g'.name c' c'
            ((processGrammar_ok_lookup w g' c c' t hpg).1)
        · exact ih2 g' hg''

theorem cache_saved_after_each_grammar_witness :
    (buildDistLoop wWorld [wGram] [] []).persisted =
      (buildDistLoop wWorld [wGram] [] []).cache ∧
    (List.lookup wGram.name (buildDistLoop wWorld [wGram] [] []).persisted).isSome
      = true := by
  have h := cache_saved_after_each_grammar wWorld [wGram] [] [] rfl
    (List.cons_ne_nil _ _)
  exact ⟨h.1, h.2.1 wGram (List.mem_singleton.mpr rfl)⟩

/-- C7: `loadCache` returns the empty mapping - and raises nothing, it
is a total function - both when the persisted cache file is absent and
when its contents fail to parse; only a well-formed file yields its
parsed mapping, so in the two degraded cases the run proceeds exactly as
with a cold cache. -/
theorem loadCache_missing_or_corrupt_is_cold :
    loadCache CacheFileState.missing = [] ∧
    loadCache CacheFileState.corrupt = [] ∧
    ∀ c : Cache, loadCache (CacheFileState.parsed c) = c :=
  ⟨rfl, rfl, fun _ => rfl⟩

theorem replaceFirst_no_occurrence (pat rep : Str) :
    ∀ t, containsTok pat t = false → replaceFirst pat rep t = t := by
  intro t
  induction t with
  | nil => intro _; rfl
  | cons c rest ih =>
    intro h
    unfold containsTok at h
    rw [Bool.or_eq_false_iff] at h
    obtain ⟨h1, h2⟩ := h
    unfold replaceFirst
    simp [h1, ih h2]

theorem replaceFirst_at_first_occurrence (pat rep A B : Str) (hpat : pat ≠ [])
    (hfirst : ∀ i < A.length,
      pat.isPrefixOf ((A ++ pat ++ B).drop i) = false) :
    replaceFirst pat rep (A ++ pat ++ B) = A ++ rep ++ B := by
  induction A with
  | nil =>
    rcases hp : pat with _ | ⟨c, pt⟩
    · exact absurd hp hpat
    · show replaceFirst (c :: pt) rep (c :: (pt ++ B)) = rep ++ B
      have hpre : (c :: pt).isPrefixOf (c :: (pt ++ B)) = true :=
        List.isPrefixOf_iff_prefix.mpr (List.prefix_append (c :: pt) B)
      unfold replaceFirst
      rw [if_pos hpre]
      congr 1
      show (pt ++ B).drop pt.length = B
      exact List.drop_left pt B
  | cons a A' ih =>
    have h0 : pat.isPrefixOf (a :: (A' ++ pat ++ B)) = false := by
      have := hfirst 0 (by simp)
      rwa [List.drop_zero] at this
    show replaceFirst pat rep (a :: (A' ++ pat ++ B)) = a :: (A' ++ rep ++ B)
    unfold replaceFirst
    simp only [h0, Bool.false_eq_true, if_false]
    refine congrArg (List.cons a) (ih ?_)
    intro i hi
    exact hfirst (i + 1) (by simpa using Nat.succ_lt_succ hi)

/-- C3 counterexample: JavaScript `String.prototype.replace` with a
string pattern replaces only the first occurrence, so on a template
containing the placeholder token twice the second occurrence survives:
the output is not the claimed result with every occurrence replaced. -/
theorem second_token_occurrence_not_replaced :
    populateReadmeText (INSERT_LANGS_TOKEN ++ (' ' :: INSERT_LANGS_TOKEN)) "T".data
      = 'T' :: (' ' :: INSERT_LANGS_TOKEN) ∧
    populateReadmeText (INSERT_LANGS_TOKEN ++ (' ' :: INSERT_LANGS_TOKEN)) "T".data
      ≠ 'T' :: (' ' :: "T".data) := ⟨rfl, by decide⟩

/-- C3 (amended): README generation replaces only the first occurrence
of the placeholder token with the rendered table (assumed free of the
dollar character, which JavaScript replacement strings treat specially)
and leaves all surrounding template text byte-identical; a template
containing no occurrence of the token is returned unchanged. -/
theorem template_substitution_first_occurrence (A B table : Str)
    (hdollar : '$' ∉ table)
    (hfirst : ∀ i < A.length,
      INSERT_LANGS_TOKEN.isPrefixOf ((A ++ INSERT_LANGS_TOKEN ++ B).drop i) = false) :
    populateReadmeText (A ++ INSERT_LANGS_TOKEN ++ B) table = A ++ table ++ B ∧
    ∀ t : Str, containsTok INSERT_LANGS_TOKEN t = false →
      populateReadmeText t table = t := by
  refine ⟨?_, ?_⟩
  · exact replaceFirst_at_first_occurrence INSERT_LANGS_TOKEN table A B
      (by decide) hfirst
  · exact fun t ht => replaceFirst_no_occurrence INSERT_LANGS_TOKEN table t ht

theorem template_substitution_first_occurrence_witness :
    populateReadmeText ("x".data ++ INSERT_LANGS_TOKEN ++ "y".data) "T".data
      = "x".data ++ "T".data ++ "y".data ∧
    populateReadmeText "plain".data "T".data = "plain".data := by
  have h := template_substitution_first_occurrence "x".data "y".data "T".data
    (by decide) (by decide)
  exact ⟨h.1, h.2 "plain".data (by decide)⟩

theorem chainWorld_ok (n : Nat) : ∀ fuel j, n - j ≤ fuel →
    downloadFile (chainWorld n) (fuel + 1) j = .ok () := by
  intro fuel
  induction fuel with
  | zero =>
    intro j hj
    have hge : ¬ j < n := by omega
    simp [downloadFile, chainWorld, hge]
  | succ f ih =>
    intro j hj
    by_cases hjn : j < n
    · have hstep : downloadFile (chainWorld n) (f + 1 + 1) j
          = downloadFile (chainWorld n) (f + 1) (j + 1) := by
        simp [downloadFile, chainWorld, hjn]
      rw [hstep]
      exact ih (j + 1) (by omega)
    · simp [downloadFile, chainWorld, hjn]

/-- C8: the download operation re-requests the `location` header
whenever the response status is 301 or 302, recursively with no limit on
the number of hops (a redirect chain of any finite length `n`, given
enough recursion fuel, succeeds); every other non-200 status rejects
with `Download failed`; and a completed download implies some requested
URL answered 200 and the destination write finished. -/
theorem download_redirect_behavior :
    (∀ (U : Type) (w : NetWorld U) (fuel : Nat) (u : U),
      (w.resp u).code = 301 ∨ (w.resp u).code = 302 →
      downloadFile w (fuel + 1) u = downloadFile w fuel (w.resp u).location) ∧
    (∀ (U : Type) (w : NetWorld U) (fuel : Nat) (u : U),
      ¬ (w.resp u).code = 301 → ¬ (w.resp u).code = 302 → ¬ (w.resp u).code = 200 →
      downloadFile w (fuel + 1) u = .error (Err.downloadFailed (w.resp u).code)) ∧
    (∀ n : Nat, downloadFile (chainWorld n) (n + 1) 0 = .ok ()) ∧
    (∀ (U : Type) (w : NetWorld U) (fuel : Nat) (u : U),
      downloadFile w fuel u = .ok () →
      (∃ v : U, (w.resp v).code = 200) ∧ w.writeOk = true) := by
  refine ⟨?_, ?_, ?_, ?_⟩
  · intro U w fuel u h
    simp only [downloadFile]
    rw [if_pos h]
  · intro U w fuel u h1 h2 h3
    simp only [downloadFile]
    rw [if_neg (not_or.mpr ⟨h1, h2⟩), if_pos h3]
  · intro n
    exact chainWorld_ok n n 0 (by omega)
  · intro U w fuel
    induction fuel with
    | zero => intro u h; simp [downloadFile] at h
    | succ f ih =>
      intro u h
      simp only [downloadFile] at h
      by_cases hc : (w.resp u).code = 301 ∨ (w.resp u).code = 302
      · rw [if_pos hc] at h
        exact ih (w.resp u).location h
      · rw [if_neg hc] at h
        by_cases h200 : (w.resp u).code ≠ 200
        · rw [if_pos h200] at h
          simp at h
        · rw [if_neg h200] at h
          push_neg at h200
          by_cases hw : w.writeOk = true
          · exact ⟨⟨u, h200⟩, hw⟩
          · rw [if_neg hw] at h
            simp at h

theorem download_redirect_behavior_witness :
    downloadFile (chainWorld 1) 2 0 = downloadFile (chainWorld 1) 1 1 ∧
    downloadFile notFoundWorld 1 0 = .error (Err.downloadFailed 404) ∧
    downloadFile (chainWorld 2) 3 0 = .ok () ∧
    (chainWorld 2).writeOk = true := by
  obtain ⟨h1, h2, h3, h4⟩ := download_redirect_behavior
  exact ⟨h1 Nat (chainWorld 1) 1 0 (Or.inl (by decide)),
         h2 Nat notFoundWorld 0 0 (by decide) (by decide) (by decide),
         h3 2,
         (h4 Nat (chainWorld 2) 3 0 (h3 2)).2⟩

theorem isSuffixOf_append_of_le (p a b : Str) (hle : p.length ≤ b.length) :
    p.isSuffixOf (a ++ b) = p.isSuffixOf b := by
  rw [Bool.eq_iff_iff, List.isSuffixOf_iff_suffix, List.isSuffixOf_iff_suffix]
  constructor
  · intro hab
    exact List.suffix_of_suffix_length_le hab (List.suffix_append a b) hle
  · intro hb
    exact hb.trans (List.suffix_append a b)

theorem isSuffixOf_append_longer (p a b : Str) (hlt : b.length ≤ p.length)
    (hne : p.drop (p.length - b.length) ≠ b) :
    p.isSuffixOf (a ++ b) = false := by
  rw [Bool.eq_false_iff]
  intro htrue
  have hp := List.isSuffixOf_iff_suffix.mp htrue
  have hbp : b <:+ p :=
    List.suffix_of_suffix_length_le (List.suffix_append a b) hp hlt
  exact hne (List.suffix_iff_eq_drop.mp hbp).symm

/-- C10: the part_000 README generator selects the Visitor cell by
matching generated filenames against the misspelled suffix
`"Vistor.js"`, so for every grammar whose generated files follow the
standard `<Name>Lexer.js` / `<Name>Parser.js` / `<Name>Visitor.js` /
`<Name>Listener.js` convention - in particular whose visitor file is
`<Name>Visitor.js` - no file matches and the Visitor cell of its row is
empty. -/
theorem vistor_typo_leaves_visitor_cell_empty (name : Str) (files : List Str)
    (hstd : ∀ f ∈ files,
      f = name ++ "Lexer.js".data ∨ f = name ++ "Parser.js".data ∨
      f = name ++ "Visitor.js".data ∨ f = name ++ "Listener.js".data)
    (hvis : name ++ "Visitor.js".data ∈ files) :
    findBySuffix vistorSuffix files = none ∧ visitorCell files = [] := by
  have hnone : findBySuffix vistorSuffix files = none := by
    unfold findBySuffix
    rw [List.find?_eq_none]
    intro f hf
    rcases hstd f hf with h | h | h | h <;> subst h
    · rw [isSuffixOf_append_longer _ _ _ (by decide) (by decide)]
      simp
    · rw [isSuffixOf_append_of_le _ _ _ (by decide)]
      decide
    · rw [isSuffixOf_append_of_le _ _ _ (by decide)]
      decide
    · rw [isSuffixOf_append_of_le _ _ _ (by decide)]
      decide
  exact ⟨hnone, by simp [visitorCell, hnone, cellOf]⟩

theorem vistor_typo_leaves_visitor_cell_empty_witness :
    findBySuffix vistorSuffix
      ["FooLexer.js".data, "FooParser.js".data, "FooVisitor.js".data,
        "FooListener.js".data] = none ∧
    visitorCell
      ["FooLexer.js".data, "FooParser.js".data, "FooVisitor.js".data,
        "FooListener.js".data] = [] :=
  vistor_typo_leaves_visitor_cell_empty "Foo".data
    ["FooLexer.js".data, "FooParser.js".data, "FooVisitor.js".data,
      "FooListener.js".data] (by decide) (by decide)
